import Mathlib

/-!
Verification of the ingestion pipeline of the GMEToTheMoon repository.

The development shallowly embeds the scraping core of
src/python/scrape_pushshift.py together with the Store contract
established by setup_database.py (comments table keyed by the primary key
comment_id, written with INSERT OR IGNORE) and the body filter shared with
migrate_csv_to_db.py.  Python integers are modelled as Int; Python floor
division and floor modulus by the positive constants appearing in the code
coincide with Int division and Int modulus of Lean, which for a positive
divisor are Euclidean and hence floor operations.
-/

/-! ## Calendar conversions

date_to_epoch and epoch_to_date in scrape_pushshift.py delegate to the
datetime library pinned to the UTC time zone, so they compute the proleptic
Gregorian calendar conversion between a (year, month, day) triple and Unix
epoch seconds of that UTC midnight.  The date strings of the source are in
bijection with the triples extracted by strptime and rendered by strftime,
so the embedding works with the triples.  The days-to-date direction is the
standard era / century / four-year-block / year decomposition of the
146097-day Gregorian cycle. -/

/-- Century index (0..3) of a day-of-era in 0..146096. -/
def centOf (doe : Int) : Int := min (doe / 36524) 3

/-- Day offset inside the century of a day-of-era. -/
def centRem (doe : Int) : Int := doe - 36524 * centOf doe

/-- Four-year-block index (0..24) inside the century. -/
def quadOf (doe : Int) : Int := min (centRem doe / 1461) 24

/-- Day offset inside the four-year block. -/
def quadRem (doe : Int) : Int := centRem doe - 1461 * quadOf doe

/-- Year index (0..3) inside the four-year block. -/
def yIqOf (doe : Int) : Int := min (quadRem doe / 365) 3

/-- Day of the March-based year (0..365) of a day-of-era. -/
def doyOf (doe : Int) : Int := quadRem doe - 365 * yIqOf doe

/-- Year of era (0..399) of a day-of-era. -/
def yoeOfDoe (doe : Int) : Int := 100 * centOf doe + 4 * quadOf doe + yIqOf doe

/-- March-based month index (0..11) of a day-of-era. -/
def mpOf (doe : Int) : Int := (5 * doyOf doe + 2) / 153

/-- Date (year of era, calendar month, day of month) of a day-of-era. -/
def civilOfDoe (doe : Int) : Int × Int × Int :=
  (yoeOfDoe doe,
   if mpOf doe < 10 then mpOf doe + 3 else mpOf doe - 9,
   doyOf doe - (153 * mpOf doe + 2) / 5 + 1)

/-- Gregorian leap-year test, as computed by the datetime library. -/
def isLeap (y : Int) : Bool :=
  (y % 4 == 0 && y % 100 != 0) || y % 400 == 0

/-- Number of days of month m in year y. -/
def daysInMonth (y m : Int) : Int :=
  if m = 2 then (if isLeap y then 29 else 28)
  else if m = 4 ∨ m = 6 ∨ m = 9 ∨ m = 11 then 30 else 31

/-- Day-of-era of day d of month m in year-of-era yoe (March-based year). -/
def doeOf (yoe m d : Int) : Int :=
  365 * yoe + yoe / 4 - yoe / 100 + (153 * (if m ≤ 2 then m + 9 else m - 3) + 2) / 5 + d - 1

/-- Days since 1970-01-01 of the proleptic Gregorian date (y, m, d). -/
def daysFromCivil (y m d : Int) : Int :=
  let ys := if m ≤ 2 then y - 1 else y
  146097 * (ys / 400) + doeOf (ys - 400 * (ys / 400)) m d - 719468

/-- Proleptic Gregorian date (y, m, d) of a count of days since 1970-01-01. -/
def civilFromDays (z : Int) : Int × Int × Int :=
  let era := (z + 719468) / 146097
  let t := civilOfDoe (z + 719468 - 146097 * era)
  (if t.2.1 ≤ 2 then t.1 + 400 * era + 1 else t.1 + 400 * era, t.2.1, t.2.2)

/-- Model of date_to_epoch: the Unix timestamp of UTC midnight of the date,
as computed by datetime.strptime with tzinfo pinned to UTC followed by
timestamp.  The YYYY-MM-DD string of the source is represented by the
(year, month, day) triple that strptime extracts from it. -/
def date_to_epoch (y m d : Int) : Int := 86400 * daysFromCivil y m d

/-- Model of epoch_to_date: the UTC calendar date of an epoch-seconds value,
as computed by datetime.fromtimestamp under the UTC time zone followed by
strftime.  The resulting YYYY-MM-DD string is represented by the returned
(year, month, day) triple. -/
def epoch_to_date (e : Int) : Int × Int × Int := civilFromDays (e / 86400)

/-- Validity of a calendar date triple. -/
def validDate (y m d : Int) : Prop := 1 ≤ m ∧ m ≤ 12 ∧ 1 ≤ d ∧ d ≤ daysInMonth y m

instance validDate.instDecidable (y m d : Int) : Decidable (validDate y m d) := by
  unfold validDate
  infer_instance

/-! ## Comment records and the Store

A raw API record is a JSON object read with dict.get, so every field is
optional and carries the default used at the corresponding call site in
insert_comments.  A Row is one row of the comments table; its date column
holds the rendering of the date triple computed by epoch_to_date. -/

/-- Raw comment payload as returned by the API, fields all optional. -/
structure RawComment where
  id : Option String
  body : Option String
  author : Option String
  score : Option Int
  created_utc : Option Int
  parent_id : Option String
  permalink : Option String
  subreddit : Option String
deriving DecidableEq

/-- Row of the comments table, with the defaults of insert_comments applied. -/
structure Row where
  comment_id : String
  body : String
  author : String
  score : Int
  created_utc : Int
  date : Int × Int × Int
  parent_id : String
  permalink : String
  subreddit : String
deriving DecidableEq

/-- Mapping from a raw payload to a table row, mirroring the VALUES tuple of
insert_comments including every dict.get default. -/
def rowOfRaw (c : RawComment) : Row :=
  { comment_id := c.id.getD ("")
    body := c.body.getD ("")
    author := c.author.getD ("[deleted]")
    score := c.score.getD 1
    created_utc := c.created_utc.getD 0
    date := epoch_to_date (c.created_utc.getD 0)
    parent_id := c.parent_id.getD ("")
    permalink := c.permalink.getD ("")
    subreddit := c.subreddit.getD ("wallstreetbets") }

/-- Created timestamp of a raw record with the default of the source,
mirroring the expression used both for the date column and for the cursor. -/
def createdUtc (c : RawComment) : Int := c.created_utc.getD 0

/-- Body filter of insert_comments and of migrate_csv_to_sqlite: the two
deletion sentinels and the empty string are excluded before write. -/
def isExcludedBody (b : String) : Bool :=
  b == "[deleted]" || b == "[removed]" || b == ""

/-- The Store: the rows of the comments table in insertion order. -/
abbrev Store : Type := List Row

/-- Membership test for the primary key comment_id. -/
def hasId (s : Store) (i : String) : Bool := s.any (fun r => r.comment_id == i)

/-- Number of rows of the Store carrying a given comment_id. -/
def countId (s : Store) (i : String) : Nat := s.countP (fun r => r.comment_id == i)

/-- Model of INSERT OR IGNORE on the comments table, whose primary key is
comment_id (setup_database.py): when the key is already present the
statement is a no-op, otherwise the row is appended.  No exception is
raised in either case. -/
def insertOrIgnore (s : Store) (r : Row) : Store :=
  if hasId s r.comment_id then s else s ++ [r]

/-- One iteration of the loop body of insert_comments: the accumulator is
the Store paired with the running inserted counter.  The counter is
incremented after every executed INSERT OR IGNORE, also when the statement
ignored a duplicate key, exactly as in the source where the increment
follows conn.execute unconditionally (sqlite3.IntegrityError is never
raised by INSERT OR IGNORE, so the except branch never runs). -/
def insStep (acc : Store × Nat) (c : RawComment) : Store × Nat :=
  if isExcludedBody (c.body.getD ("")) then acc
  else (insertOrIgnore acc.1 (rowOfRaw c), acc.2 + 1)

/-- Model of insert_comments: folds the batch through insStep and returns
the new Store with the value of the inserted counter. -/
def insert_comments (s : Store) (cs : List RawComment) : Store × Nat :=
  cs.foldl insStep (s, 0)

/-- Record of an ad-hoc tabular file consumed by migrate_csv_to_db.py,
restricted to the columns relevant to the body filter. -/
structure CsvRecord where
  comment_id : String
  body : String
  author : String
  score : Int
deriving DecidableEq

/-- Model of the body filter of migrate_csv_to_sqlite: rows whose body is
one of the deletion sentinels or the empty string are dropped before the
frame is written to the comments table. -/
def migrateFilter (rows : List CsvRecord) : List CsvRecord :=
  rows.filter (fun r => !(isExcludedBody r.body))

/-! ## Rate-limited client -/

/-- Outcome of one HTTP request issued by fetch_comments. -/
inductive ApiResponse where
  | throttled : ApiResponse
  | transportError : ApiResponse
  | success : List RawComment → ApiResponse
deriving DecidableEq

/-- Backoff before retrying a throttled response, computed in the source as
min(2 ** retries * 5, 60) from the current retry counter. -/
def throttleWait (attempt : Nat) : Nat := min (2 ^ attempt * 5) 60

/-- Backoff before retrying a generic transport error, computed in the
source as min(2 ** retries * 2, 30) from the incremented retry counter. -/
def transportWait (attempt : Nat) : Nat := min (2 ^ attempt * 2) 30

/-- Retry loop of fetch_comments over an oracle giving the outcome of the
k-th request.  The loop of the source runs while retries < 5, increments
the single shared counter retries on a throttled response and on a
transport error alike, and returns the payload on success; the fuel
argument equals 5 - retries, so structural recursion on it is exactly the
loop guard.  The give-up path (max retries exceeded, source returns the
empty list) is modelled as none to keep it distinguishable from a
successful empty payload. -/
def fetchAux (resp : Nat → ApiResponse) : Nat → Nat → Option (List RawComment) × Nat
  | 0, retries => (none, retries)
  | fuel + 1, retries =>
    match resp retries with
    | ApiResponse.success b => (some b, retries)
    | ApiResponse.throttled => fetchAux resp fuel (retries + 1)
    | ApiResponse.transportError => fetchAux resp fuel (retries + 1)

/-- Model of fetch_comments: the retry loop started with retries = 0 and
max_retries = 5. -/
def fetch_comments (resp : Nat → ApiResponse) : Option (List RawComment) :=
  (fetchAux resp 5 0).1

/-! ## Cursor algorithm and ingestion loop -/

/-- Maximum created_utc over a batch, mirroring the generator expression
max(c.get("created_utc", 0) for c in comments) of the source; on the empty
batch (never reached in the loop, which breaks first) the value is 0. -/
def maxCreated : List RawComment → Int
  | [] => 0
  | c :: rest => rest.foldl (fun a x => max a (createdUtc x)) (createdUtc c)

/-- Cursor advancement of one loop iteration: move to the maximal
created_utc of the batch, or force progress by one second when the batch
does not advance time. -/
def stepCursor (cur : Int) (batch : List RawComment) : Int :=
  if maxCreated batch ≤ cur then cur + 1 else maxCreated batch

/-- Cursor value after processing a sequence of batches in one run. -/
def cursorAfter (start : Int) (bs : List (List RawComment)) : Int :=
  bs.foldl stepCursor start

/-- Model of SELECT MAX(created_utc) FROM comments: none on the empty
table, otherwise the maximum over all rows. -/
def storeMaxCreated (s : Store) : Option Int :=
  s.foldl
    (fun acc r =>
      match acc with
      | none => some r.created_utc
      | some m => some (max m r.created_utc))
    none

/-- Resume logic of scrape: the source tests `if max_utc and max_utc >
start_epoch`, where the truthiness test makes both a missing maximum (NULL
fetched as None) and a maximum equal to the integer 0 fall back to the
configured start epoch. -/
def resumeCursor (maxUtc : Option Int) (startEpoch : Int) : Int :=
  match maxUtc with
  | none => startEpoch
  | some m => if m ≠ 0 ∧ startEpoch < m then m else startEpoch

/-- Strict cursor progress of one iteration; needed up front because the
termination of the ingestion loop rests on it. -/
theorem stepCursor_gt (cur : Int) (batch : List RawComment) : cur < stepCursor cur batch := by
  unfold stepCursor
  split_ifs with h <;> omega

/-- Model of the while loop of scrape: the batch returned for iteration n
is given by an oracle indexed by the batch number, covering every possible
behaviour of the remote source.  The loop runs while the cursor is below
the end epoch, breaks on an empty batch, and otherwise inserts the batch
and advances the cursor; the result is the final Store, the final cursor,
and the number of batches processed.  Lean accepts the recursion because
the cursor strictly increases, which is the termination argument of the
source. -/
def scrapeLoop (fetch : Nat → List RawComment) (endEpoch : Int)
    (store : Store) (cur : Int) (n : Nat) : Store × Int × Nat :=
  if h : cur < endEpoch then
    if fetch n = [] then (store, cur, n)
    else
      scrapeLoop fetch endEpoch (insert_comments store (fetch n)).1
        (stepCursor cur (fetch n)) (n + 1)
  else (store, cur, n)
termination_by (endEpoch - cur).toNat
decreasing_by
  have := stepCursor_gt cur (fetch n)
  omega

/-! ## Concrete inputs used by witnesses and counterexamples -/

/-- Sample raw comment with every field present, created at the epoch of
2021-01-01T00:00:00Z. -/
def demoRaw : RawComment :=
  { id := some ("c1")
    body := some ("gme to the moon")
    author := some ("dfv")
    score := some 2
    created_utc := some 1609459200
    parent_id := some ("t1_a")
    permalink := some ("/r/wallstreetbets/c1")
    subreddit := some ("wallstreetbets") }

/-- Sample raw comment whose body is a deletion sentinel. -/
def exclRaw : RawComment :=
  { id := some ("c2")
    body := some ("[deleted]")
    author := none
    score := none
    created_utc := some 1609459201
    parent_id := none
    permalink := none
    subreddit := none }

/-- Sample raw comment with created_utc equal to 0, as produced for a
payload missing the field. -/
def zeroRaw : RawComment :=
  { id := some ("z0")
    body := some ("hold")
    author := none
    score := none
    created_utc := none
    parent_id := none
    permalink := none
    subreddit := none }

/-- Store holding exactly the row of demoRaw, built through the insert
path itself. -/
def demoStore : Store := (insert_comments ([] : Store) [demoRaw]).1

/-- Store holding exactly the row of zeroRaw, whose maximal created_utc is
the integer 0. -/
def zeroStore : Store := (insert_comments ([] : Store) [zeroRaw]).1

/-! ## Calendar lemmas -/

/-- Recovery of the year of era and the day of year from a day-of-era,
for any day count consistent with the Gregorian leap rule. -/
theorem yoeRecovery (yoe doy : Int) (h1 : 0 ≤ yoe) (h2 : yoe < 400) (h3 : 0 ≤ doy)
    (h4 : doy ≤ 364 ∨ (doy = 365 ∧ (yoe + 1) % 4 = 0 ∧ ((yoe + 1) % 100 ≠ 0 ∨ (yoe + 1) % 400 = 0))) :
    yoeOfDoe (365 * yoe + yoe / 4 - yoe / 100 + doy) = yoe ∧
    doyOf (365 * yoe + yoe / 4 - yoe / 100 + doy) = doy ∧
    0 ≤ 365 * yoe + yoe / 4 - yoe / 100 + doy ∧
    365 * yoe + yoe / 4 - yoe / 100 + doy < 146097 := by
  set doe := 365 * yoe + yoe / 4 - yoe / 100 + doy with hdoe
  set cv := yoe / 100 with hcv
  set j := yoe - 100 * cv with hj
  have hj4 : yoe / 4 = 25 * cv + j / 4 := by omega
  set jq := j / 4 with hjq
  set r := j - 4 * jq with hr
  have hdoe2 : doe = 36524 * cv + 1461 * jq + 365 * r + doy := by omega
  have hb : 0 ≤ cv ∧ cv ≤ 3 ∧ 0 ≤ j ∧ j ≤ 99 ∧ 0 ≤ jq ∧ jq ≤ 24 ∧ 0 ≤ r ∧ r ≤ 3 := by omega
  have hdoylt : doy ≤ 365 := by omega
  have hcap : cv < 3 → j < 99 ∨ r < 3 ∨ doy ≤ 364 := by
    intro hcv3
    by_contra hcon
    push_neg at hcon
    omega
  have hc : centOf doe = cv := by
    unfold centOf
    omega
  have hrem1 : centRem doe = 1461 * jq + 365 * r + doy := by
    unfold centRem
    omega
  have hq : quadOf doe = jq := by
    unfold quadOf
    rw [hrem1]
    omega
  have hrem2 : quadRem doe = 365 * r + doy := by
    unfold quadRem
    rw [hrem1, hq]
    omega
  have hyq : yIqOf doe = r := by
    unfold yIqOf
    rw [hrem2]
    omega
  refine ⟨?_, ?_, by omega, by omega⟩
  · unfold yoeOfDoe
    rw [hc, hq, hyq]
    omega
  · unfold doyOf
    rw [hrem2, hyq]
    omega

/-- Leap-year status only depends on the year residue modulo 400. -/
theorem isLeap_congr (a b : Int) (h : a % 400 = b % 400) : isLeap a = isLeap b := by
  have h4 : a % 4 = b % 4 := by omega
  have h100 : a % 100 = b % 100 := by omega
  unfold isLeap
  rw [h4, h100, h]

/-- Within one 400-year era, civilOfDoe inverts doeOf on every valid date,
and the day-of-era lies in 0..146096. -/
theorem civilOfDoe_doeOf (yoe m d : Int) (h1 : 0 ≤ yoe) (h2 : yoe < 400)
    (hm1 : 1 ≤ m) (hm2 : m ≤ 12) (hd1 : 1 ≤ d)
    (hd2 : d ≤ daysInMonth (yoe + (if m ≤ 2 then 1 else 0)) m) :
    civilOfDoe (doeOf yoe m d) = (yoe, m, d) ∧ 0 ≤ doeOf yoe m d ∧ doeOf yoe m d < 146097 := by
  set mp := (if m ≤ 2 then m + 9 else m - 3) with hmp
  set doy := (153 * mp + 2) / 5 + d - 1 with hdoy
  have harg : doeOf yoe m d = 365 * yoe + yoe / 4 - yoe / 100 + doy := by
    unfold doeOf
    omega
  have hmpb : (m ≤ 2 ∧ mp = m + 9) ∨ (3 ≤ m ∧ mp = m - 3) := by
    rcases le_or_lt m 2 with h | h
    · exact Or.inl ⟨h, by rw [hmp, if_pos h]⟩
    · exact Or.inr ⟨by omega, by rw [hmp, if_neg (by omega)]⟩
  have hdisj : 0 ≤ doy ∧ (doy ≤ 364 ∨ (doy = 365 ∧ (yoe + 1) % 4 = 0 ∧ ((yoe + 1) % 100 ≠ 0 ∨ (yoe + 1) % 400 = 0))) := by
    rcases hmpb with ⟨hm2a, hmpe⟩ | ⟨hm3, hmpe⟩
    · rcases (by omega : m = 1 ∨ m = 2) with h1a | h2a
      · subst h1a
        unfold daysInMonth at hd2
        norm_num at hd2
        exact ⟨by omega, Or.inl (by omega)⟩
      · subst h2a
        unfold daysInMonth at hd2
        norm_num at hd2
        by_cases hl : isLeap (yoe + 1) = true
        · rw [if_pos hl] at hd2
          unfold isLeap at hl
          simp only [Bool.or_eq_true, Bool.and_eq_true, beq_iff_eq, bne_iff_ne, ne_eq] at hl
          refine ⟨by omega, ?_⟩
          rcases (by omega : d ≤ 28 ∨ d = 29) with hd3 | hd3
          · exact Or.inl (by omega)
          · refine Or.inr ⟨by omega, by omega, ?_⟩
            rcases hl with ⟨hla, hlb⟩ | hlc
            · exact Or.inl (by omega)
            · exact Or.inr (by omega)
        · rw [if_neg hl] at hd2
          exact ⟨by omega, Or.inl (by omega)⟩
    · have hmp9 : mp ≤ 9 := by omega
      have hqb : (153 * mp + 2) / 5 ≤ 275 := by omega
      have hq0 : 0 ≤ (153 * mp + 2) / 5 := by omega
      have hd31 : d ≤ 31 := by
        unfold daysInMonth at hd2
        split_ifs at hd2 <;> omega
      exact ⟨by omega, Or.inl (by omega)⟩
  have K := yoeRecovery yoe doy h1 h2 hdisj.1 hdisj.2
  rw [← harg] at K
  have hmprec : mpOf (doeOf yoe m d) = mp := by
    unfold mpOf
    rw [K.2.1]
    rcases hmpb with ⟨hm2a, hmpe⟩ | ⟨hm3, hmpe⟩
    · rcases (by omega : m = 1 ∨ m = 2) with h1a | h2a
      · subst h1a
        unfold daysInMonth at hd2
        norm_num at hd2
        omega
      · subst h2a
        have hd29 : d ≤ 29 := by
          unfold daysInMonth at hd2
          split_ifs at hd2 <;> omega
        omega
    · interval_cases m <;>
      · unfold daysInMonth at hd2
        norm_num at hd2
        omega
  refine ⟨?_, K.2.2.1, K.2.2.2⟩
  unfold civilOfDoe
  rw [hmprec, K.1, K.2.1]
  refine Prod.ext ?_ (Prod.ext ?_ ?_)
  · rfl
  · simp only
    rcases hmpb with ⟨hm2a, hmpe⟩ | ⟨hm3, hmpe⟩ <;> split_ifs <;> omega
  · simp only
    omega

/-- Round trip of the day count: converting any valid Gregorian date to
days since the epoch and back returns the date. -/
theorem civilFromDays_daysFromCivil (y m d : Int) (hm1 : 1 ≤ m) (hm2 : m ≤ 12)
    (hd1 : 1 ≤ d) (hd2 : d ≤ daysInMonth y m) :
    civilFromDays (daysFromCivil y m d) = (y, m, d) := by
  have hysr : daysFromCivil y m d
      = 146097 * ((if m ≤ 2 then y - 1 else y) / 400)
        + doeOf ((if m ≤ 2 then y - 1 else y) - 400 * ((if m ≤ 2 then y - 1 else y) / 400)) m d
        - 719468 := rfl
  set ys := if m ≤ 2 then y - 1 else y with hysdef
  set era := ys / 400 with heradef
  set yoe := ys - 400 * era with hyoedef
  have hyb : 0 ≤ yoe ∧ yoe < 400 := by omega
  have hysy : (m ≤ 2 → ys = y - 1) ∧ (3 ≤ m → ys = y) := by
    constructor
    · intro h
      rw [hysdef, if_pos h]
    · intro h
      rw [hysdef, if_neg (by omega)]
  have hmod : y % 400 = (yoe + (if m ≤ 2 then 1 else 0)) % 400 := by
    rcases le_or_lt m 2 with h | h
    · rw [if_pos h]
      have := hysy.1 h
      omega
    · rw [if_neg (by omega)]
      have := hysy.2 (by omega)
      omega
  have hcongr : daysInMonth y m = daysInMonth (yoe + (if m ≤ 2 then 1 else 0)) m := by
    unfold daysInMonth
    rw [isLeap_congr y (yoe + (if m ≤ 2 then 1 else 0)) hmod]
  rw [hcongr] at hd2
  have K := civilOfDoe_doeOf yoe m d hyb.1 hyb.2 hm1 hm2 hd1 hd2
  have hz : daysFromCivil y m d + 719468 = 146097 * era + doeOf yoe m d := by
    rw [hysr]
    ring
  have hera2 : (daysFromCivil y m d + 719468) / 146097 = era := by
    rw [hz]
    have := K.2.1
    have := K.2.2
    omega
  have hrem : daysFromCivil y m d + 719468 - 146097 * ((daysFromCivil y m d + 719468) / 146097)
      = doeOf yoe m d := by
    rw [hera2, hz]
    ring
  show civilFromDays (daysFromCivil y m d) = (y, m, d)
  unfold civilFromDays
  simp only [hrem, K.1]
  have hy : (m ≤ 2 → y = yoe + 400 * era + 1) ∧ (3 ≤ m → y = yoe + 400 * era) := by
    constructor
    · intro h
      have := hysy.1 h
      omega
    · intro h
      have := hysy.2 h
      omega
  rcases le_or_lt m 2 with h | h
  · rw [if_pos h]
    have := hy.1 h
    exact Prod.ext (by omega) rfl
  · rw [if_neg (by omega)]
    have := hy.2 (by omega)
    exact Prod.ext (by omega) rfl

/-! ## Helper lemmas on the Store and the cursor -/

/-- Membership in the result of an idempotent insert. -/
theorem mem_insertOrIgnore (s : Store) (x r : Row) (h : r ∈ insertOrIgnore s x) :
    r ∈ s ∨ r = x := by
  unfold insertOrIgnore at h
  split_ifs at h
  · exact Or.inl h
  · rcases List.mem_append.1 h with h1 | h1
    · exact Or.inl h1
    · exact Or.inr (List.mem_singleton.1 h1)

/-- The rows produced by the batch-insert fold either come from the initial
accumulator or are the mapped image of a batch record that passed the body
filter. -/
theorem insStep_foldl_mem (cs : List RawComment) :
    ∀ (acc : Store × Nat) (r : Row), r ∈ (cs.foldl insStep acc).1 →
      r ∈ acc.1 ∨ ∃ c ∈ cs, isExcludedBody (c.body.getD ("")) = false ∧ r = rowOfRaw c := by
  induction cs with
  | nil =>
    intro acc r h
    exact Or.inl h
  | cons c t ih =>
    intro acc r h
    rw [List.foldl_cons] at h
    rcases ih (insStep acc c) r h with h1 | ⟨c2, hc2, hex, hr⟩
    · unfold insStep at h1
      split_ifs at h1 with hguard
      · exact Or.inl h1
      · rcases mem_insertOrIgnore acc.1 (rowOfRaw c) r h1 with h2 | h2
        · exact Or.inl h2
        · exact Or.inr ⟨c, List.mem_cons_self c t, by simp [Bool.not_eq_true] at hguard ⊢; exact ⟨hguard, h2⟩⟩
    · exact Or.inr ⟨c2, List.mem_cons_of_mem c hc2, hex, hr⟩

/-- The body stored by rowOfRaw is the defaulted body field tested by the
filter of insert_comments. -/
theorem rowOfRaw_body (c : RawComment) : (rowOfRaw c).body = c.body.getD ("") := rfl

/-- An accumulator upper bound for the folded maximum of created_utc. -/
theorem le_foldl_maxCreated (l : List RawComment) :
    ∀ a : Int, a ≤ l.foldl (fun x y => max x (createdUtc y)) a := by
  induction l with
  | nil =>
    intro a
    exact le_refl a
  | cons c t ih =>
    intro a
    rw [List.foldl_cons]
    exact le_trans (le_max_left a (createdUtc c)) (ih (max a (createdUtc c)))

/-- Every element bound for the folded maximum of created_utc. -/
theorem mem_le_foldl_maxCreated (l : List RawComment) :
    ∀ (a : Int) (c : RawComment), c ∈ l →
      createdUtc c ≤ l.foldl (fun x y => max x (createdUtc y)) a := by
  induction l with
  | nil =>
    intro a c h
    exact absurd h (List.not_mem_nil c)
  | cons x t ih =>
    intro a c h
    rw [List.foldl_cons]
    rcases List.mem_cons.1 h with h1 | h1
    · subst h1
      exact le_trans (le_max_right a (createdUtc c)) (le_foldl_maxCreated t (max a (createdUtc c)))
    · exact ih (max a (createdUtc x)) c h1

/-- The batch maximum bounds every created_utc of the batch. -/
theorem createdUtc_le_maxCreated (batch : List RawComment) (c : RawComment) (h : c ∈ batch) :
    createdUtc c ≤ maxCreated batch := by
  cases batch with
  | nil => exact absurd h (List.not_mem_nil c)
  | cons x t =>
    unfold maxCreated
    rcases List.mem_cons.1 h with h1 | h1
    · subst h1
      exact le_foldl_maxCreated t (createdUtc c)
    · exact mem_le_foldl_maxCreated t (createdUtc x) c h1

/-- The batch maximum never exceeds the advanced cursor. -/
theorem maxCreated_le_stepCursor (cur : Int) (batch : List RawComment) :
    maxCreated batch ≤ stepCursor cur batch := by
  unfold stepCursor
  split_ifs with h <;> omega

/-- The cursor never decreases along a fold over batches. -/
theorem le_cursorAfter (bs : List (List RawComment)) :
    ∀ start : Int, start ≤ cursorAfter start bs := by
  induction bs with
  | nil =>
    intro start
    exact le_refl start
  | cons b t ih =>
    intro start
    unfold cursorAfter
    rw [List.foldl_cons]
    exact le_trans (le_of_lt (stepCursor_gt start b)) (ih (stepCursor start b))

/-! ## Claim theorems -/

/-- Claim C1, counterexample: an unbroken run of throttled responses does
make fetch_comments give up on the batch.  Five consecutive 429 responses
exhaust the shared retry budget: the call returns the give-up value after
the counter reaches 5. -/
theorem claim_C1_counterexample :
    fetch_comments (fun _ => ApiResponse.throttled) = none ∧
    (fetchAux (fun _ => ApiResponse.throttled) 5 0).2 = 5 := by
  constructor <;> rfl

/-- Retry bookkeeping of the fetch loop: the call gives up exactly when the
first fuel responses are all failures. -/
theorem fetchAux_none_iff (resp : Nat → ApiResponse) :
    ∀ (fuel r : Nat), (fetchAux resp fuel r).1 = none ↔
      ∀ k, k < fuel → ∀ b, resp (r + k) ≠ ApiResponse.success b := by
  intro fuel
  induction fuel with
  | zero =>
    intro r
    constructor
    · intro _ k hk
      omega
    · intro _
      rfl
  | succ fuel ih =>
    intro r
    unfold fetchAux
    cases hr : resp r with
    | success b =>
      simp only
      constructor
      · intro h
        exact absurd h (by simp)
      · intro h
        exact absurd hr (by simpa using h 0 (by omega) b)
    | throttled =>
      simp only
      rw [ih (r + 1)]
      constructor
      · intro h k hk b
        rcases Nat.eq_zero_or_pos k with h0 | h0
        · subst h0
          simp [hr]
        · have := h (k - 1) (by omega) b
          have harith : r + 1 + (k - 1) = r + k := by omega
          rw [harith] at this
          exact this
      · intro h k hk b
        have := h (k + 1) (by omega) b
        have harith : r + (k + 1) = r + 1 + k := by omega
        rw [harith] at this
        exact this
    | transportError =>
      simp only
      rw [ih (r + 1)]
      constructor
      · intro h k hk b
        rcases Nat.eq_zero_or_pos k with h0 | h0
        · subst h0
          simp [hr]
        · have := h (k - 1) (by omega) b
          have harith : r + 1 + (k - 1) = r + k := by omega
          rw [harith] at this
          exact this
      · intro h k hk b
        have := h (k + 1) (by omega) b
        have harith : r + (k + 1) = r + 1 + k := by omega
        rw [harith] at this
        exact this

/-- Claim C1, amended: retry attempts on HTTP 429 are not uncapped; they
draw on the single retry counter shared with transport errors, whose budget
is 5 attempts, so fetch_comments gives up on the batch exactly when the
first five responses are all non-successes, in particular after five
consecutive throttled responses. -/
theorem claim_C1_amended (resp : Nat → ApiResponse) :
    fetch_comments resp = none ↔
      ∀ k, k < 5 → ∀ b, resp k ≠ ApiResponse.success b := by
  unfold fetch_comments
  rw [fetchAux_none_iff resp 5 0]
  constructor
  · intro h k hk b
    have := h k hk b
    rwa [Nat.zero_add] at this
  · intro h k hk b
    rw [Nat.zero_add]
    exact h k hk b

/-- After inserting a row its key is present in the Store. -/
theorem hasId_insertOrIgnore_self (s : Store) (r : Row) :
    hasId (insertOrIgnore s r) r.comment_id = true := by
  unfold insertOrIgnore
  split_ifs with hs
  · exact hs
  · unfold hasId
    rw [List.any_append]
    simp

/-- Claim C2: inserting a record whose id already exists in the Store is a
no-op.  A present key makes the insert return the Store unchanged, a second
insert of the same key never alters the result of the first (so nothing is
overwritten and no error path exists: the operation is a total function),
and the number of rows carrying the key never grows beyond one occurrence
over what the initial Store already had. -/
theorem claim_C2 (s : Store) (r r' : Row) (h : r'.comment_id = r.comment_id) :
    (hasId s r'.comment_id = true → insertOrIgnore s r' = s) ∧
    insertOrIgnore (insertOrIgnore s r) r' = insertOrIgnore s r ∧
    countId (insertOrIgnore (insertOrIgnore s r) r') r.comment_id
      ≤ max 1 (countId s r.comment_id) := by
  have hfst : ∀ (t : Store), hasId t r'.comment_id = true → insertOrIgnore t r' = t := by
    intro t ht
    unfold insertOrIgnore
    rw [if_pos ht]
  have hsecond : insertOrIgnore (insertOrIgnore s r) r' = insertOrIgnore s r := by
    apply hfst
    rw [h]
    exact hasId_insertOrIgnore_self s r
  refine ⟨hfst s, hsecond, ?_⟩
  rw [hsecond]
  unfold insertOrIgnore countId
  split_ifs with hs
  · exact le_max_right 1 (s.countP (fun x => x.comment_id == r.comment_id))
  · rw [List.countP_append]
    have hzero : s.countP (fun x => x.comment_id == r.comment_id) = 0 := by
      apply List.countP_eq_zero.2
      intro a ha
      unfold hasId at hs
      have := (List.any_eq_false).1 (Bool.not_eq_true _ ▸ hs) a ha
      simpa using this
    simp [hzero, List.countP_cons]

/-- Claim C2 witness: a concrete duplicate insert into the demo Store. -/
theorem claim_C2_witness :
    (hasId demoStore (rowOfRaw demoRaw).comment_id = true →
      insertOrIgnore demoStore (rowOfRaw demoRaw) = demoStore) ∧
    insertOrIgnore (insertOrIgnore demoStore (rowOfRaw demoRaw)) (rowOfRaw demoRaw)
      = insertOrIgnore demoStore (rowOfRaw demoRaw) ∧
    countId (insertOrIgnore (insertOrIgnore demoStore (rowOfRaw demoRaw)) (rowOfRaw demoRaw))
        (rowOfRaw demoRaw).comment_id
      ≤ max 1 (countId demoStore (rowOfRaw demoRaw).comment_id) :=
  claim_C2 demoStore (rowOfRaw demoRaw) (rowOfRaw demoRaw) rfl

/-- Claim C3: for a non-empty batch, the cursor update of one loop
iteration moves to the batch maximum when it exceeds the cursor and
advances by exactly one second otherwise; the first conjunct records that
maxCreated is an upper bound of the created_utc values of the batch. -/
theorem claim_C3 (cur : Int) (batch : List RawComment) (h : batch ≠ []) :
    (∀ c ∈ batch, createdUtc c ≤ maxCreated batch) ∧
    (cur < maxCreated batch → stepCursor cur batch = maxCreated batch) ∧
    (maxCreated batch ≤ cur → stepCursor cur batch = cur + 1) := by
  refine ⟨fun c hc => createdUtc_le_maxCreated batch c hc, ?_, ?_⟩
  · intro h1
    unfold stepCursor
    rw [if_neg (by omega)]
  · intro h1
    unfold stepCursor
    rw [if_pos h1]

/-- Claim C3 witness: one concrete iteration in each regime. -/
theorem claim_C3_witness :
    stepCursor 0 [demoRaw] = maxCreated [demoRaw] ∧
    stepCursor 1609459200 [demoRaw] = 1609459201 :=
  ⟨(claim_C3 0 [demoRaw] (by decide)).2.1 (by decide),
   (claim_C3 1609459200 [demoRaw] (by decide)).2.2 (by decide)⟩

/-- Claim C4, counterexample: a Store whose maximal persisted created_utc
is the integer 0 together with a start boundary before 1970 (here the
epoch of 1969-12-31, which is negative).  The maximum exists and exceeds
the start boundary, yet the cursor falls back to the start boundary,
because the source guards the comparison with the Python truthiness test
`if max_utc and ...`, under which the integer 0 is false. -/
theorem claim_C4_counterexample :
    storeMaxCreated zeroStore = some 0 ∧
    date_to_epoch 1969 12 31 < 0 ∧
    resumeCursor (storeMaxCreated zeroStore) (date_to_epoch 1969 12 31)
      = date_to_epoch 1969 12 31 := by
  refine ⟨by decide, by decide, by decide⟩

/-- Claim C4, amended: the initial cursor equals the persisted maximum
exactly when that maximum exists, is nonzero, and exceeds the start
boundary; when the Store is empty, or its maximum is zero, or its maximum
is at or below the start boundary, the cursor equals the start boundary. -/
theorem claim_C4_amended (s : Store) (start mval : Int) :
    (storeMaxCreated s = some mval → mval ≠ 0 → start < mval →
      resumeCursor (storeMaxCreated s) start = mval) ∧
    (storeMaxCreated s = none → resumeCursor (storeMaxCreated s) start = start) ∧
    (storeMaxCreated s = some mval → (mval = 0 ∨ mval ≤ start) →
      resumeCursor (storeMaxCreated s) start = start) := by
  refine ⟨?_, ?_, ?_⟩
  · intro hm h0 hlt
    rw [hm]
    show (if mval ≠ 0 ∧ start < mval then mval else start) = mval
    rw [if_pos ⟨h0, hlt⟩]
  · intro hm
    rw [hm]
    rfl
  · intro hm hcase
    rw [hm]
    show (if mval ≠ 0 ∧ start < mval then mval else start) = start
    have hneg : ¬(mval ≠ 0 ∧ start < mval) := by
      intro hcon
      rcases hcase with h1 | h1
      · exact hcon.1 h1
      · omega
    rw [if_neg hneg]

/-- Claim C4 witness: resuming over the demo Store with a small start. -/
theorem claim_C4_witness :
    resumeCursor (storeMaxCreated demoStore) 3 = 1609459200 :=
  (claim_C4_amended demoStore 3 1609459200).1 (by decide) (by decide) (by decide)

/-- Claim C5: starting from a Store free of excluded bodies, any sequence
of batch inserts leaves the Store free of rows whose body is one of the
deletion sentinels or the empty string; and the filter of the bulk importer
never lets such a record through either. -/
theorem claim_C5 (init : Store) (batches : List (List RawComment)) (rows : List CsvRecord)
    (h : ∀ r ∈ init, isExcludedBody r.body = false) :
    (∀ r ∈ batches.foldl (fun s b => (insert_comments s b).1) init,
      isExcludedBody r.body = false) ∧
    (∀ r ∈ migrateFilter rows, isExcludedBody r.body = false) := by
  constructor
  · induction batches generalizing init with
    | nil =>
      exact h
    | cons b t ih =>
      rw [List.foldl_cons]
      apply ih
      intro r hr
      rcases insStep_foldl_mem b (init, 0) r hr with h1 | ⟨c, _, hex, hr2⟩
      · exact h r h1
      · rw [hr2, rowOfRaw_body]
        exact hex
  · intro r hr
    unfold migrateFilter at hr
    have := List.of_mem_filter hr
    simpa using this

/-- Claim C5 witness: a concrete run over a batch containing a deleted
comment, plus a concrete importer filter application. -/
theorem claim_C5_witness :
    (∀ r ∈ ([[demoRaw, exclRaw]] : List (List RawComment)).foldl
        (fun s b => (insert_comments s b).1) ([] : Store),
      isExcludedBody r.body = false) ∧
    (∀ r ∈ migrateFilter [⟨"m1", "[removed]", "a", 0⟩, ⟨"m2", "yolo", "b", 1⟩],
      isExcludedBody r.body = false) :=
  claim_C5 [] [[demoRaw, exclRaw]] [⟨"m1", "[removed]", "a", 0⟩, ⟨"m2", "yolo", "b", 1⟩]
    (by decide)

/-- Claim C6, the code bug it exposes: re-inserting an already-present
record leaves the Store unchanged (zero rows actually added) while the
inserted counter returned by insert_comments still reports 1, because the
increment follows the INSERT OR IGNORE unconditionally and the
IntegrityError branch that was meant to skip duplicates is unreachable.
The summary statistic fed from this return value therefore over-counts. -/
theorem claim_C6_bug :
    (insert_comments demoStore [demoRaw]).1 = demoStore ∧
    (insert_comments demoStore [demoRaw]).2 = 1 := by
  constructor <;> rfl

/-- Retry counter bound of the fetch loop. -/
theorem fetchAux_retries_le (resp : Nat → ApiResponse) :
    ∀ fuel r, (fetchAux resp fuel r).2 ≤ r + fuel := by
  intro fuel
  induction fuel with
  | zero =>
    intro r
    simp [fetchAux]
  | succ fuel ih =>
    intro r
    unfold fetchAux
    cases hr : resp r with
    | success b =>
      simp
    | throttled =>
      simp only
      exact le_trans (ih (r + 1)) (by omega)
    | transportError =>
      simp only
      exact le_trans (ih (r + 1)) (by omega)

/-- Claim C7: the computed throttling backoff never exceeds 60 seconds,
the computed transport backoff never exceeds 30 seconds, and the retry
counter of fetch_comments never exceeds 5 before the batch is given up,
whatever the sequence of responses. -/
theorem claim_C7 :
    (∀ a : Nat, throttleWait a ≤ 60) ∧
    (∀ a : Nat, transportWait a ≤ 30) ∧
    (∀ resp : Nat → ApiResponse, (fetchAux resp 5 0).2 ≤ 5) := by
  refine ⟨fun a => min_le_right _ 60, fun a => min_le_right _ 30, fun resp => ?_⟩
  exact le_trans (fetchAux_retries_le resp 5 0) (by omega)

/-- Claim C10: for every valid calendar date whose year fits the four-digit
YYYY-MM-DD form accepted by the source, converting the date to its
UTC-midnight epoch and back yields the original date. -/
theorem claim_C10 (y m d : Int) (hy1 : 1 ≤ y) (hy2 : y ≤ 9999) (hv : validDate y m d) :
    epoch_to_date (date_to_epoch y m d) = (y, m, d) := by
  unfold epoch_to_date date_to_epoch
  have h8 : 86400 * daysFromCivil y m d / 86400 = daysFromCivil y m d := by omega
  rw [h8]
  exact civilFromDays_daysFromCivil y m d hv.1 hv.2.1 hv.2.2.1 hv.2.2.2

/-- Claim C10 witness: the round trip at 2021-01-15. -/
theorem claim_C10_witness :
    (1 ≤ (2021 : Int) ∧ (2021 : Int) ≤ 9999 ∧ validDate 2021 1 15) ∧
    epoch_to_date (date_to_epoch 2021 1 15) = (2021, 1, 15) :=
  ⟨⟨by norm_num, by norm_num, by decide⟩,
   claim_C10 2021 1 15 (by norm_num) (by norm_num) (by decide)⟩

/-- Claim C8: along any sequence of batches processed in one run the
cursor is monotone, and the cursor requested after a window is at least
the highest created_utc seen in that window. -/
theorem claim_C8 (start : Int) (bs : List (List RawComment)) :
    (∀ n m : Nat, n ≤ m → cursorAfter start (bs.take n) ≤ cursorAfter start (bs.take m)) ∧
    (∀ i : Nat, i < bs.length →
      maxCreated (bs.getD i []) ≤ cursorAfter start (bs.take (i + 1))) := by
  constructor
  · intro n m hnm
    have hsplit : bs.take m = bs.take n ++ ((bs.drop n).take (m - n)) := by
      rw [show m = n + (m - n) by omega, List.take_add]
      congr 2
      omega
    rw [hsplit]
    unfold cursorAfter
    rw [List.foldl_append]
    exact le_cursorAfter ((bs.drop n).take (m - n)) _
  · intro i hi
    have htake : bs.take (i + 1) = bs.take i ++ [bs.getD i []] := by
      rw [List.take_succ]
      congr 1
      rw [List.getElem?_eq_getElem hi]
      rw [List.getD_eq_getElem bs [] hi]
      rfl
    rw [htake]
    unfold cursorAfter
    rw [List.foldl_append]
    simp only [List.foldl_cons, List.foldl_nil]
    exact maxCreated_le_stepCursor _ _

/-- Claim C8 witness: a two-batch run starting at cursor 0. -/
theorem claim_C8_witness :
    cursorAfter 0 (([[demoRaw], [demoRaw, exclRaw]] : List (List RawComment)).take 1)
      ≤ cursorAfter 0 (([[demoRaw], [demoRaw, exclRaw]] : List (List RawComment)).take 2) ∧
    maxCreated (([[demoRaw], [demoRaw, exclRaw]] : List (List RawComment)).getD 1 [])
      ≤ cursorAfter 0 (([[demoRaw], [demoRaw, exclRaw]] : List (List RawComment)).take 2) :=
  ⟨(claim_C8 0 [[demoRaw], [demoRaw, exclRaw]]).1 1 2 (by omega),
   (claim_C8 0 [[demoRaw], [demoRaw, exclRaw]]).2 1 (by decide)⟩

/-- Iteration bound and exit condition of the ingestion loop, proved by
induction on an upper bound of the remaining cursor distance. -/
theorem scrapeLoop_spec (fetch : Nat → List RawComment) (e : Int) :
    ∀ (k : Nat) (store : Store) (cur : Int) (n : Nat), (e - cur).toNat ≤ k →
      (scrapeLoop fetch e store cur n).2.2 ≤ n + (e - cur).toNat ∧
      (e ≤ (scrapeLoop fetch e store cur n).2.1 ∨
        fetch (scrapeLoop fetch e store cur n).2.2 = []) := by
  intro k
  induction k with
  | zero =>
    intro store cur n hk
    have hcur : ¬(cur < e) := by omega
    unfold scrapeLoop
    rw [dif_neg hcur]
    constructor
    · show n ≤ n + (e - cur).toNat
      omega
    · exact Or.inl (by omega : e ≤ cur)
  | succ k ih =>
    intro store cur n hk
    by_cases hcur : cur < e
    · unfold scrapeLoop
      rw [dif_pos hcur]
      by_cases hb : fetch n = []
      · rw [if_pos hb]
        constructor
        · show n ≤ n + (e - cur).toNat
          omega
        · exact Or.inr hb
      · rw [if_neg hb]
        have hstep := stepCursor_gt cur (fetch n)
        have hle : (e - stepCursor cur (fetch n)).toNat ≤ k := by omega
        obtain ⟨h1, h2⟩ :=
          ih (insert_comments store (fetch n)).1 (stepCursor cur (fetch n)) (n + 1) hle
        exact ⟨by omega, h2⟩
    · unfold scrapeLoop
      rw [dif_neg hcur]
      constructor
      · show n ≤ n + (e - cur).toNat
        omega
      · exact Or.inl (by omega : e ≤ cur)

/-- Claim C9: the ingestion loop terminates for every end boundary and
every oracle of batches.  Each iteration advances the cursor by at least
one second, the number of processed batches is bounded by the initial
distance from the cursor to the end boundary, and on exit either the
cursor has reached the end boundary or the last requested batch was
empty. -/
theorem claim_C9 (fetch : Nat → List RawComment) (endEpoch : Int) (store : Store) (cur : Int) :
    ((scrapeLoop fetch endEpoch store cur 0).2.2 ≤ (endEpoch - cur).toNat) ∧
    (endEpoch ≤ (scrapeLoop fetch endEpoch store cur 0).2.1 ∨
      fetch (scrapeLoop fetch endEpoch store cur 0).2.2 = []) ∧
    (∀ batch : List RawComment, cur + 1 ≤ stepCursor cur batch) := by
  obtain ⟨h1, h2⟩ := scrapeLoop_spec fetch endEpoch (endEpoch - cur).toNat store cur 0 (le_refl _)
  refine ⟨by omega, h2, ?_⟩
  intro batch
  have := stepCursor_gt cur batch
  omega
